import Mathlib

/-!
Shallow embedding of the fsconsul watch-reconcile engine
(`main.go` plus the un-named watcher/reconciler source file).

Go maps from string to string are modelled as association lists with
unique keys; Go's distinction between a `nil` map and a non-nil empty map
(observable through `reflect.DeepEqual`) is modelled by `Option Env`.
The filesystem is a partial map from paths to file contents.
External collaborators (Consul client, `os.Remove`, `os.Create`,
`gosecret.DecryptTags`, `template` parse/execute, `exec.Command.Run`)
are oracles collected in a `World` record.  The embedding fixes the
Unix platform (`os.PathSeparator = '/'`, `isWindows = false`) except in
`normalizePath`, which is parametric in the separator byte.
-/

namespace Fsconsul

/-- Go `map[string]string`, as an association list with unique keys. -/
abbrev Env := List (String × String)

/-- Reading a Go map: `v, ok := m[k]`. -/
def envLookup (e : Env) (k : String) : Option String :=
  (e.find? (fun p => p.1 == k)).map (fun p => p.2)

/-- Go map assignment `m[k] = v` (last write wins, keys unique). -/
def envInsert (e : Env) (k v : String) : Env :=
  e.filter (fun p => p.1 != k) ++ [(k, v)]

/-- The keys of a Go map. -/
def envKeys (e : Env) : List String := e.map (fun p => p.1)

/-- Equality of two (non-nil) Go maps as `reflect.DeepEqual` computes it:
same key set and equal value for every key. -/
def envEq (a b : Env) : Bool :=
  (envKeys a).all (fun k => envLookup b k == envLookup a k) &&
  (envKeys b).all (fun k => envLookup a k == envLookup b k)

/-- `reflect.DeepEqual(env, newEnv)` at line 223 of the watcher source:
`env` starts as a `nil` map (`var env map[string]string`) while `newEnv`
is always non-nil (`make`); a nil map is never DeepEqual to a non-nil
map, even when both are empty. -/
def deepEqualOpt (env : Option Env) (newEnv : Env) : Bool :=
  match env with
  | none => false
  | some e => envEq e newEnv

/-- The semantic key-to-bytes container of an Environment as the spec
views it: the Environment is "empty at reconciler start", so the nil
map of the uninitialized state reads as the empty container. -/
def semEnv (env : Option Env) : Env := env.getD []

/-- `strings.TrimPrefix(key, pre)`: drop `pre` when it heads `key`. -/
def trimPrefixStr (key pre : String) : String :=
  if pre.data.isPrefixOf key.data then String.mk (key.data.drop pre.data.length)
  else key

/-- `strings.TrimLeft(k, "/")`: drop every leading slash. -/
def trimLeftSlash (k : String) : String :=
  String.mk (k.data.dropWhile (fun c => c == '/'))

/-- Line 216-217: relative key of a raw Consul key under a mapping. -/
def relKey (pre key : String) : String := trimLeftSlash (trimPrefixStr key pre)

/-- Lines 211-219: build `newEnv` from the received pair list. -/
def buildNewEnv (pre : String) (pairs : List (String × String)) : Env :=
  pairs.foldl (fun acc p => envInsert acc (relKey pre p.1) p.2) []

/-! ### Startup normalization (lines 160-183) -/

/-- The byte `34`, the double-quote the source compares against. -/
def quoteChar : Char := Char.ofNat 34

/-- Last character of a string, if any. -/
def strLast (s : String) : Option Char := s.data.getLast?

/-- Append one character. -/
def strAppendChar (s : String) (c : Char) : String := String.mk (s.data ++ [c])

/-- Drop the last character. -/
def strDropLast (s : String) : String := String.mk s.data.dropLast

/-- Lines 166-169: `if Prefix[0] == '/' { Prefix = Prefix[1:] }`.
`none` models the index-out-of-range panic on an empty prefix. -/
def trimLeadingSlash (pre : String) : Option String :=
  match pre.data with
  | [] => none
  | c :: rest => some (if c == '/' then String.mk rest else pre)

/-- Lines 171-183: ensure a trailing separator on the mapping path, then
strip a trailing double-quote (byte 34) if the last byte is one.
`none` models the index-out-of-range panic on an empty path. -/
def normalizePath (sep : Char) (p : String) : Option String :=
  match strLast p with
  | none => none
  | some last =>
    let p1 := if last != sep then strAppendChar p sep else p
    match strLast p1 with
    | some c => if c == quoteChar then some (strDropLast p1) else some p1
    | none => some p1

/-- Result of the pre-watch part of `watchMappingAndExec` (lines 160-183). -/
inductive StartResult
  | clientErr (e : String)
  | panicked
  | started (pre path : String)
  deriving DecidableEq, Repr

/-- Lines 160-183: Consul client construction (`return 0, err` on
failure), then prefix and path normalization, each of which indexes its
string without an emptiness check. -/
def startMapping (clientOk : Bool) (pre path : String) (sep : Char) : StartResult :=
  if !clientOk then .clientErr "client construction failed"
  else
    match trimLeadingSlash pre with
    | none => .panicked
    | some pre1 =>
      match normalizePath sep path with
      | none => .panicked
      | some path1 => .started pre1 path1

/-! ### Retry policy (lines 447-465) -/

/-- Result of one `client.KV().List` call: pairs plus query meta index,
or an error. -/
inductive ListRes
  | ok (pairs : List (String × String)) (lastIndex : Nat)
  | err (e : String)
  deriving DecidableEq, Repr

/-- What one run of `retryableList` did: the value returned, the sleeps
performed (`time.Sleep(i*2)` units), and how many times `f` was called. -/
structure RetryOut where
  result : ListRes
  sleeps : List Nat
  calls : Nat
  deriving DecidableEq, Repr

/-- One pass of the `for` loop body of `retryableList`, lines 448-464.
`f n` is the result of the `(n+1)`-th call of the wrapped closure.
After the sleep the body falls through to `return p, m, e`, so every
control path of the body returns; the fuel counts loop iterations and
`none` would mean the loop ran out of fuel. -/
def retryableListAux (f : Nat → ListRes) : Nat → Nat → Nat → List Nat → Option RetryOut
  | 0, _, _, _ => none
  | _ + 1, callIdx, i, sleeps =>
    match f callIdx with
    | .err e =>
      if 3 ≤ i then some ⟨.err e, sleeps, callIdx + 1⟩
      else
        some ⟨.err e, sleeps ++ [(i + 1) * 2], callIdx + 1⟩
    | .ok p m => some ⟨.ok p m, sleeps, callIdx + 1⟩

/-- `retryableList` with ample fuel, starting at `i = 0`. -/
def retryableList (f : Nat → ListRes) : Option RetryOut :=
  retryableListAux f 1000 0 0 []

/-! ### Mapping supervisor (lines 63-107) -/

/-- Lines 92-100: fold the collected per-mapping return codes into the
`failures` flag; the loop receives exactly one code per mapping. -/
def collectFailuresLoop (codes : List Int) : Bool :=
  codes.foldl (fun failures rc => if rc ≠ 0 then true else failures) false

/-- Lines 102-106: the aggregate return value of `watchAndExec` as a
function of the complete list of unit return codes (the collection loop
blocks until every unit has reported; nothing cancels a sibling unit). -/
def watchAndExecAgg (codes : List Int) : Int :=
  if collectFailuresLoop codes then -1 else 0

/-! ### Reconciler model (lines 185-386) -/

/-- A mapping after startup normalization.  `pfx` models the Go field
`Prefix` (a Lean keyword), `onChange` the `OnChange` argv list with
Go's nil/non-nil distinction. -/
structure Mapping where
  onChange : Option (List String)
  pfx : String
  path : String
  keystore : String

/-- Oracles for the external collaborators: filesystem calls, the
gosecret decrypt, template parse/execute, and `exec.Command.Run`
(`true` = exit status 0).  Each oracle is keyed on the arguments the
source passes it. -/
structure World where
  removeOk : String → Bool
  createOk : String → Bool
  writeOk : String → Bool
  decrypt : String → String → Except String String
  parseTmpl : String → Except String Unit
  execTmpl : String → Except String String
  runCmd : List String → Bool

/-- Observable side effects of one reconcile pass, in program order. -/
inductive Ev
  | evRemove (p : String)
  | evMkdir (p : String)
  | evCreate (p : String)
  | evTransform (key : String)
  | evWrite (p : String) (content : String)
  | evEnvReplace
  | evCmd (argv : List String)
  deriving DecidableEq, Repr

/-- The filesystem: a partial map from path to file content. -/
abbrev Fs := String → Option String

/-- `os.Create`: create or truncate to empty / a successful `f.Write`. -/
def fsSet (p c : String) (fs : Fs) : Fs :=
  fun q => if q = p then some c else fs q

/-- A successful `os.Remove`. -/
def fsRemove (p : String) (fs : Fs) : Fs :=
  fun q => if q = p then none else fs q

/-- `keyfile[:strings.LastIndex(keyfile, "/")]`, the argument of
`mkdirp.Mk` (lines 268-275); the normalized mapping path ends in the
separator, so the slash is always present. -/
def dirOf (s : String) : String :=
  String.mk (((s.data.reverse.dropWhile (fun c => c != '/')).drop 1).reverse)

/-- Lines 229-247: iterate over the current `env`; every key absent
from `newEnv` gets an `os.Remove` of `Path + key`; a removal failure is
only logged and the loop continues with the remaining keys. -/
def deletePhase (w : World) (mPath : String) (newEnv : Env) :
    Env → Fs → Fs × List Ev
  | [], fs => (fs, [])
  | (k, _) :: rest, fs =>
    if (envLookup newEnv k).isSome then deletePhase w mPath newEnv rest fs
    else
      let keyfile := mPath ++ k
      let fs1 := if w.removeOk keyfile then fsRemove keyfile fs else fs
      let out := deletePhase w mPath newEnv rest fs1
      (out.1, Ev.evRemove keyfile :: out.2)

/-- Lines 253-363, one key: mkdirp the parent (failure only logged),
`os.Create` the file (failure skips the key), run the transform
pipeline when a keystore is configured (any failure skips the write,
leaving the freshly truncated file), then `f.Write` the buffer
(failure only logged). -/
def processKey (w : World) (ks mPath : String) (fs : Fs) (k v : String) :
    Fs × List Ev :=
  let keyfile := mPath ++ k
  let mkEvs := [Ev.evMkdir (dirOf keyfile)]
  if !w.createOk keyfile then (fs, mkEvs)
  else
    let fs1 := fsSet keyfile "" fs
    let evs1 := mkEvs ++ [Ev.evCreate keyfile]
    if ks.length > 0 then
      let evs2 := evs1 ++ [Ev.evTransform k]
      match w.decrypt ks v with
      | .error _ => (fs1, evs2)
      | .ok data =>
        match w.parseTmpl data with
        | .error _ => (fs1, evs2)
        | .ok _ =>
          match w.execTmpl data with
          | .error _ => (fs1, evs2)
          | .ok rendered =>
            if w.writeOk keyfile then
              (fsSet keyfile rendered fs1, evs2 ++ [Ev.evWrite keyfile rendered])
            else (fs1, evs2)
    else
      if w.writeOk keyfile then
        (fsSet keyfile v fs1, evs1 ++ [Ev.evWrite keyfile v])
      else (fs1, evs1)

/-- Lines 253-363: write every key of `newEnv`. -/
def writePhase (w : World) (ks mPath : String) : Env → Fs → Fs × List Ev
  | [], fs => (fs, [])
  | (k, v) :: rest, fs =>
    let out1 := processKey w ks mPath fs k v
    let out2 := writePhase w ks mPath rest out1.1
    (out2.1, out1.2 ++ out2.2)

/-- How an iteration of the reconciler loop returns, when it does:
the run-once success return (line 383, after `close(quitCh)`) or the
on-change failure return of code 111 (line 376). -/
inductive ExitKind
  | onceDone
  | cmdFail
  deriving DecidableEq, Repr

/-- Result of processing one received pair list (lines 211-385). -/
structure CycleOut where
  envOut : Option Env
  fsOut : Fs
  evs : List Ev
  exit : Option ExitKind

/-- One iteration of the reconciler loop on a received pair list:
build `newEnv`; on `reflect.DeepEqual` continue untouched; otherwise
delete vanished keys, replace `env` (line 250, before the writes),
write every current key, then run the on-change command if configured;
`return 111` on its failure; on run-once close the quit channel and
`return 0`. -/
def reconcileCycle (w : World) (runOnce : Bool) (m : Mapping)
    (env : Option Env) (fs : Fs) (pairs : List (String × String)) : CycleOut :=
  let newEnv := buildNewEnv m.pfx pairs
  if deepEqualOpt env newEnv then ⟨env, fs, [], none⟩
  else
    let d := deletePhase w m.path newEnv (env.getD []) fs
    let wr := writePhase w m.keystore m.path newEnv d.1
    let cmdEvs := match m.onChange with
      | some argv => [Ev.evCmd argv]
      | none => []
    let evs := d.2 ++ Ev.evEnvReplace :: (wr.2 ++ cmdEvs)
    match m.onChange with
    | some argv =>
      if w.runCmd argv then
        if runOnce then ⟨some newEnv, wr.1, evs, some ExitKind.onceDone⟩
        else ⟨some newEnv, wr.1, evs, none⟩
      else ⟨some newEnv, wr.1, evs, some ExitKind.cmdFail⟩
    | none =>
      if runOnce then ⟨some newEnv, wr.1, evs, some ExitKind.onceDone⟩
      else ⟨some newEnv, wr.1, evs, none⟩

/-- A message on the watcher channels: a pair list on `pairCh` or an
error on `errCh`. -/
inductive Msg
  | pairs (ps : List (String × String))
  | err (e : String)
  deriving DecidableEq, Repr

/-- How one mapping unit ended: the `(returnCode, err)` pair of
`watchMappingAndExec` together with whether `quitCh` ended up closed
(by the deferred close, registered only when not run-once, or by the
explicit run-once close at line 382), or still waiting for messages.
`errOut` carries the error received on the error channel; the error
value accompanying the 111 return is abstracted away because the
`runCmd` oracle only models success or failure of the command. -/
inductive Outcome
  | finished (code : Int) (errOut : Option String) (quitClosed : Bool)
  | waiting
  deriving DecidableEq, Repr

/-- State of one mapping unit after consuming a list of messages. -/
structure UnitOut where
  outcome : Outcome
  envOut : Option Env
  fsOut : Fs
  evs : List Ev

/-- `exitCode`: the first return value at the two returning exits of
the loop body. -/
def exitCode : ExitKind → Int
  | .onceDone => 0
  | .cmdFail => 111

/-- Whether `quitCh` is closed when the loop body returns: the run-once
success path closes it explicitly; otherwise only the deferred close
(registered iff not run-once) fires. -/
def exitQuitClosed (runOnce : Bool) : ExitKind → Bool
  | .onceDone => true
  | .cmdFail => !runOnce

/-- Lines 199-385: the reconciler loop of `watchMappingAndExec`, driven
by the finite list of messages the watcher sends.  An error message
makes the function `return 0, err` (line 208). -/
def runUnit (w : World) (runOnce : Bool) (m : Mapping) :
    List Msg → Option Env → Fs → List Ev → UnitOut
  | [], env, fs, evs => ⟨Outcome.waiting, env, fs, evs⟩
  | Msg.err e :: _, env, fs, evs =>
    ⟨Outcome.finished 0 (some e) (!runOnce), env, fs, evs⟩
  | Msg.pairs ps :: rest, env, fs, evs =>
    let out := reconcileCycle w runOnce m env fs ps
    match out.exit with
    | none => runUnit w runOnce m rest out.envOut out.fsOut (evs ++ out.evs)
    | some ek =>
      ⟨Outcome.finished (exitCode ek) none (exitQuitClosed runOnce ek),
        out.envOut, out.fsOut, evs ++ out.evs⟩

/-- The initial read of `watch` (lines 400-410): issued without the
retry policy; on error the watcher sends the error on `errCh` and
returns (stops); on success it sends the initial pair list. -/
inductive InitRead
  | ok (pairs : List (String × String)) (lastIndex : Nat)
  | err (e : String)
  deriving DecidableEq, Repr

/-- Messages the watcher emits for its initial read, and whether it
stopped immediately afterwards. -/
def watchInitialMsgs : InitRead → List Msg × Bool
  | .err e => ([Msg.err e], true)
  | .ok ps _ => ([Msg.pairs ps], false)

/-! ### Trace predicates used by the claims -/

def isRemoveEv : Ev → Bool
  | .evRemove _ => true
  | _ => false

def isWriteEv : Ev → Bool
  | .evWrite _ _ => true
  | _ => false

def isReplaceEv : Ev → Bool
  | .evEnvReplace => true
  | _ => false

def isCmdEv : Ev → Bool
  | .evCmd _ => true
  | _ => false

/-- Number of Environment replacements in a trace. -/
def replaceCount (evs : List Ev) : Nat :=
  (evs.filter isReplaceEv).length

/-- Whether some file removal happens after the Environment
replacement. -/
def removesAfterReplace (evs : List Ev) : Bool :=
  (((evs.dropWhile (fun e => !isReplaceEv e)).drop 1).any isRemoveEv)

/-- Whether some file write happens after the Environment
replacement. -/
def writesAfterReplace (evs : List Ev) : Bool :=
  (((evs.dropWhile (fun e => !isReplaceEv e)).drop 1).any isWriteEv)

/-- Whether some file write happens before the Environment
replacement. -/
def writesBeforeReplace (evs : List Ev) : Bool :=
  ((evs.takeWhile (fun e => !isReplaceEv e)).any isWriteEv)

/-- Whether the transform pipeline fails for value `v` under keystore
`ks`: decrypt, template parse, or template execute errors. -/
def transformFails (w : World) (ks v : String) : Bool :=
  match w.decrypt ks v with
  | .error _ => true
  | .ok data =>
    match w.parseTmpl data with
    | .error _ => true
    | .ok _ =>
      match w.execTmpl data with
      | .error _ => true
      | .ok _ => false

/-! ### Concrete instances used by counterexamples and witnesses -/

/-- A world in which every external call succeeds. -/
def allOkWorld : World where
  removeOk := fun _ => true
  createOk := fun _ => true
  writeOk := fun _ => true
  decrypt := fun _ v => .ok v
  parseTmpl := fun _ => .ok ()
  execTmpl := fun d => .ok d
  runCmd := fun _ => true

/-- Like `allOkWorld`, but the on-change command fails. -/
def failCmdWorld : World := { allOkWorld with runCmd := fun _ => false }

/-- Like `allOkWorld`, but `gosecret.DecryptTags` fails. -/
def failDecryptWorld : World :=
  { allOkWorld with decrypt := fun _ _ => .error "no such key" }

/-- A normalized mapping for prefix `p`, root path `out/`, with an
on-change command and no keystore. -/
def demoMapping : Mapping where
  onChange := some ["onchange"]
  pfx := "p"
  path := "out/"
  keystore := ""

/-- The empty filesystem. -/
def emptyFs : Fs := fun _ => none

/-- A filesystem holding prior content for the file `out/k`. -/
def priorFs : Fs := fun p => if p = "out/k" then some "old" else none

/-! ### Helper lemmas -/

theorem envEq_refl (e : Env) : envEq e e = true := by
  simp [envEq, List.all_eq_true]

theorem takeWhile_append_all {α : Type} (p : α → Bool) (l1 l2 : List α) (x : α)
    (h1 : ∀ a ∈ l1, p a = true) (hx : p x = false) :
    (l1 ++ x :: l2).takeWhile p = l1 := by
  induction l1 with
  | nil => simp [List.takeWhile_cons, hx]
  | cons a as ih =>
    have ha := h1 a (List.mem_cons_self a as)
    simp [List.takeWhile_cons, ha,
      ih (fun b hb => h1 b (List.mem_cons_of_mem a hb))]

theorem dropWhile_append_all {α : Type} (p : α → Bool) (l1 l2 : List α) (x : α)
    (h1 : ∀ a ∈ l1, p a = true) (hx : p x = false) :
    (l1 ++ x :: l2).dropWhile p = x :: l2 := by
  induction l1 with
  | nil => simp [List.dropWhile_cons, hx]
  | cons a as ih =>
    have ha := h1 a (List.mem_cons_self a as)
    simp [List.dropWhile_cons, ha,
      ih (fun b hb => h1 b (List.mem_cons_of_mem a hb))]

/-- The deletion loop emits one removal attempt per key of the current
environment that is absent from the candidate, in iteration order, no
matter whether earlier removals failed. -/
theorem deletePhase_evs (w : World) (mPath : String) (newEnv : Env) :
    ∀ (env : Env) (fs : Fs),
      (deletePhase w mPath newEnv env fs).2 =
        (env.filter (fun kv => !(envLookup newEnv kv.1).isSome)).map
          (fun kv => Ev.evRemove (mPath ++ kv.1)) := by
  intro env
  induction env with
  | nil => intro fs; simp [deletePhase]
  | cons kv rest ih =>
    intro fs
    obtain ⟨k, v⟩ := kv
    rcases henv : envLookup newEnv k with _ | val
    · simp [deletePhase, henv, List.filter_cons, ih]
    · simp [deletePhase, henv, List.filter_cons, ih]

/-- The deletion loop removes exactly the files of deleted keys whose
`os.Remove` succeeds and leaves every other path untouched. -/
theorem deletePhase_fs (w : World) (mPath : String) (newEnv : Env) :
    ∀ (env : Env) (fs : Fs) (p : String),
      (deletePhase w mPath newEnv env fs).1 p =
        if env.any (fun kv => !(envLookup newEnv kv.1).isSome &&
            (mPath ++ kv.1 == p) && w.removeOk (mPath ++ kv.1))
        then none else fs p := by
  intro env
  induction env with
  | nil => intro fs p; simp [deletePhase]
  | cons kv rest ih =>
    intro fs p
    obtain ⟨k, v⟩ := kv
    rcases henv : envLookup newEnv k with _ | val
    · by_cases hro : w.removeOk (mPath ++ k)
      · by_cases hp : mPath ++ k = p
        · subst hp
          simp [deletePhase, henv, List.any_cons, ih, hro, fsRemove]
        · have hbp : (mPath ++ k == p) = false := by simp [hp]
          simp only [deletePhase, henv, List.any_cons, hro, hbp]
          simp only [Option.isSome_none, Bool.not_false, Bool.true_and,
            Bool.false_and, Bool.and_false, Bool.and_true, Bool.false_or,
            Bool.false_eq_true, if_false, eq_self_iff_true, if_true]
          rw [ih]
          simp only [fsRemove]
          rw [if_neg (Ne.symm hp)]
      · rw [Bool.not_eq_true] at hro
        simp only [deletePhase, henv, List.any_cons, hro]
        simp only [Option.isSome_none, Bool.not_false, Bool.true_and,
          Bool.and_false, Bool.false_or, Bool.false_eq_true, if_false]
        rw [ih]
    · simp only [deletePhase, henv, List.any_cons]
      simp only [Option.isSome_some, Bool.not_true, Bool.false_and,
        Bool.false_or, eq_self_iff_true, if_true]
      rw [ih]

/-- Events the write phase can emit (everything except removals,
environment replacement and command execution). -/
def writeish : Ev → Bool
  | .evMkdir _ => true
  | .evCreate _ => true
  | .evTransform _ => true
  | .evWrite _ _ => true
  | _ => false

theorem processKey_writeish (w : World) (ks mPath : String) (fs : Fs)
    (k v : String) :
    ((processKey w ks mPath fs k v).2.all writeish) = true := by
  unfold processKey
  dsimp only
  repeat' split
  all_goals rfl

theorem writePhase_writeish (w : World) (ks mPath : String) :
    ∀ (env : Env) (fs : Fs),
      ((writePhase w ks mPath env fs).2.all writeish) = true := by
  intro env
  induction env with
  | nil => intro fs; rfl
  | cons kv rest ih =>
    intro fs
    obtain ⟨k, v⟩ := kv
    simp [writePhase, List.all_append, processKey_writeish, ih]

theorem writeish_not_remove (e : Ev) (h : writeish e = true) :
    isRemoveEv e = false := by
  cases e <;> simp_all [writeish, isRemoveEv]

theorem writeish_not_replace (e : Ev) (h : writeish e = true) :
    isReplaceEv e = false := by
  cases e <;> simp_all [writeish, isReplaceEv]

/-- Shape of an accepted cycle's trace: removals, then the environment
replacement, then the rest. -/
theorem trace_shape (dEvs rest : List Ev)
    (hd : ∀ e ∈ dEvs, isRemoveEv e = true)
    (hr : ∀ e ∈ rest, isRemoveEv e = false ∧ isReplaceEv e = false) :
    replaceCount (dEvs ++ Ev.evEnvReplace :: rest) = 1 ∧
    removesAfterReplace (dEvs ++ Ev.evEnvReplace :: rest) = false ∧
    writesBeforeReplace (dEvs ++ Ev.evEnvReplace :: rest) = false := by
  have hdrep : ∀ e ∈ dEvs, isReplaceEv e = false := by
    intro e he
    have := hd e he
    cases e <;> simp_all [isRemoveEv, isReplaceEv]
  have hdwr : ∀ e ∈ dEvs, isWriteEv e = false := by
    intro e he
    have := hd e he
    cases e <;> simp_all [isRemoveEv, isWriteEv]
  refine ⟨?_, ?_, ?_⟩
  · unfold replaceCount
    rw [List.filter_append]
    rw [List.filter_eq_nil_iff.mpr (fun e he => by simp [hdrep e he])]
    rw [List.filter_cons]
    rw [List.filter_eq_nil_iff.mpr (fun e he => by simp [(hr e he).2])]
    rfl
  · unfold removesAfterReplace
    rw [dropWhile_append_all _ dEvs rest Ev.evEnvReplace
      (fun e he => by simp [hdrep e he]) (by rfl)]
    simp only [List.drop_succ_cons, List.drop_zero]
    rw [List.any_eq_false]
    intro e he
    simp [(hr e he).1]
  · unfold writesBeforeReplace
    rw [takeWhile_append_all _ dEvs rest Ev.evEnvReplace
      (fun e he => by simp [hdrep e he]) (by rfl)]
    rw [List.any_eq_false]
    intro e he
    simp [hdwr e he]

/-- A cycle on a non-DeepEqual pair list takes the else branch: the
environment is replaced by the candidate, the trace is deletions, then
the replacement, then the writes, then the optional command. -/
theorem reconcileCycle_accepted (w : World) (ro : Bool) (m : Mapping)
    (env : Option Env) (fs : Fs) (pairs : List (String × String))
    (hb : deepEqualOpt env (buildNewEnv m.pfx pairs) = false) :
    (reconcileCycle w ro m env fs pairs).envOut = some (buildNewEnv m.pfx pairs) ∧
    (reconcileCycle w ro m env fs pairs).evs =
      (deletePhase w m.path (buildNewEnv m.pfx pairs) (env.getD []) fs).2 ++
        Ev.evEnvReplace ::
          ((writePhase w m.keystore m.path (buildNewEnv m.pfx pairs)
              (deletePhase w m.path (buildNewEnv m.pfx pairs) (env.getD []) fs).1).2 ++
            (match m.onChange with
             | some argv => [Ev.evCmd argv]
             | none => [])) ∧
    (reconcileCycle w ro m env fs pairs).fsOut =
      (writePhase w m.keystore m.path (buildNewEnv m.pfx pairs)
        (deletePhase w m.path (buildNewEnv m.pfx pairs) (env.getD []) fs).1).1 := by
  unfold reconcileCycle
  simp only [hb, Bool.false_eq_true, if_false]
  rcases hoc : m.onChange with _ | argv <;> simp only [hoc]
  · cases ro <;> exact ⟨rfl, rfl, rfl⟩
  · by_cases hrc : w.runCmd argv = true
    · simp only [hrc, eq_self_iff_true, if_true]
      cases ro <;> exact ⟨rfl, rfl, rfl⟩
    · rw [Bool.not_eq_true] at hrc
      simp only [hrc, Bool.false_eq_true, if_false]
      exact ⟨trivial, trivial, trivial⟩

/-- A cycle whose candidate is DeepEqual to the held environment is the
`continue` branch: nothing happens. -/
theorem reconcileCycle_noop (w : World) (ro : Bool) (m : Mapping) (e : Env)
    (fs : Fs) (pairs : List (String × String))
    (h : envEq e (buildNewEnv m.pfx pairs) = true) :
    reconcileCycle w ro m (some e) fs pairs = ⟨some e, fs, [], none⟩ := by
  unfold reconcileCycle
  simp [deepEqualOpt, h]

/-- The `failures` flag computed by the collection loop. -/
theorem collectFailuresLoop_eq_any (codes : List Int) :
    collectFailuresLoop codes = codes.any (fun c => decide (c ≠ 0)) := by
  have h : ∀ (l : List Int) (b : Bool),
      l.foldl (fun failures rc => if rc ≠ 0 then true else failures) b =
        (b || l.any (fun c => decide (c ≠ 0))) := by
    intro l
    induction l with
    | nil => intro b; simp
    | cons c rest ih =>
      intro b
      simp only [List.foldl_cons, List.any_cons]
      rw [ih]
      by_cases hc : c = 0
      · simp [hc]
      · simp [hc]
  unfold collectFailuresLoop
  rw [h codes false]
  simp

/-- The last character of a normalized path is always the separator, so
the `== 34` comparison of the quote-strip branch can never be true for a
separator other than the quote itself. -/
theorem normalizePath_last (sep : Char) (p q : String) (hsep : sep ≠ quoteChar)
    (h : normalizePath sep p = some q) : strLast q = some sep := by
  have hq : (sep == quoteChar) = false := by
    simp [hsep]
  unfold normalizePath at h
  rcases hl : strLast p with _ | last
  · rw [hl] at h; cases h
  · rw [hl] at h
    simp only at h
    by_cases hls : last = sep
    · have hbl : (last != sep) = false := by simp [hls]
      rw [hls] at hl
      simp only [hbl, Bool.false_eq_true, if_false, hl, hq] at h
      cases h
      exact hl
    · have hbl : (last != sep) = true := by simp [hls]
      have hap : strLast (strAppendChar p sep) = some sep := by
        simp [strLast, strAppendChar]
      simp only [hbl, if_true, hap, hq, Bool.false_eq_true, if_false] at h
      cases h
      exact hap

/-- Unfolding one iteration of the retry loop. -/
theorem retryableListAux_succ (f : Nat → ListRes) (fuel callIdx i : Nat)
    (sleeps : List Nat) :
    retryableListAux f (fuel + 1) callIdx i sleeps =
      match f callIdx with
      | .err e =>
        if 3 ≤ i then some ⟨.err e, sleeps, callIdx + 1⟩
        else some ⟨.err e, sleeps ++ [(i + 1) * 2], callIdx + 1⟩
      | .ok p m => some ⟨.ok p m, sleeps, callIdx + 1⟩ := rfl

/-! ### Claims -/

/-- C1: the Retry Policy claim fails on the code.  In `retryableList`
every control path of the loop body returns — after the backoff sleep
the body falls through to `return p, m, e` instead of looping — so the
wrapped closure is called exactly once.  A read that fails on every
attempt surfaces its error after a single attempt and a single sleep of
`1 * 2` units, not after 4 attempts with sleeps 2, 4, 6. -/
theorem retryableList_single_attempt :
    retryableList (fun _ => ListRes.err "connection refused") =
      some ⟨ListRes.err "connection refused", [2], 1⟩ ∧
    ∀ f : Nat → ListRes, ∃ out : RetryOut,
      retryableList f = some out ∧ out.calls = 1 := by
  refine ⟨rfl, ?_⟩
  intro f
  have h : retryableList f = retryableListAux f (999 + 1) 0 0 [] := rfl
  cases hf : f 0 with
  | ok ps li =>
    refine ⟨⟨.ok ps li, [], 1⟩, ?_, rfl⟩
    rw [h, retryableListAux_succ, hf]
  | err e =>
    refine ⟨⟨.err e, [2], 1⟩, ?_, rfl⟩
    rw [h, retryableListAux_succ, hf]
    rfl

/-- C2 counterexample: when the very first read errors, the watcher
sends the error and `watchMappingAndExec` returns `0, err` — completion
code 0, not a nonzero code — so the supervisor aggregate over this
single unit is 0 (success), contradicting the claim. -/
theorem initialError_returns_zero :
    (runUnit allOkWorld false demoMapping [Msg.err "connection refused"]
        none emptyFs []).outcome =
      Outcome.finished 0 (some "connection refused") true ∧
    watchAndExecAgg [0] = 0 := by
  exact ⟨rfl, rfl⟩

/-- C2 (amended): on a first-read error the watcher pushes the error
onto the error channel and stops, the reconciler loop returns
immediately with no filesystem activity — but with completion code `0`
and the error only as its second return value, so the unit does not
register as failed with the supervisor. -/
theorem initialError_unit_outcome (w : World) (ro : Bool) (m : Mapping)
    (e : String) (env : Option Env) (fs : Fs) :
    watchInitialMsgs (InitRead.err e) = ([Msg.err e], true) ∧
    (runUnit w ro m [Msg.err e] env fs []).outcome =
      Outcome.finished 0 (some e) (!ro) ∧
    (runUnit w ro m [Msg.err e] env fs []).evs = [] := by
  exact ⟨rfl, rfl, rfl⟩

/-- C5: the quote strip is dead code.  The trailing-separator
normalization runs first, so by the time the `== 34` comparison is
made the last byte is always the separator; a configured path with a
stray trailing quote keeps that quote (now followed by the separator)
in every path the reconciler uses, on either separator convention. -/
theorem trailingQuote_survives_normalization :
    normalizePath '/' (String.mk ['o', 'u', 't', quoteChar]) =
      some (String.mk ['o', 'u', 't', quoteChar, '/']) ∧
    normalizePath '\\' (String.mk ['o', 'u', 't', quoteChar]) =
      some (String.mk ['o', 'u', 't', quoteChar, '\\']) := by
  exact ⟨rfl, rfl⟩

/-- C8: the supervisor's aggregate is 0 exactly when every collected
unit code is 0, and its only other value is the distinguished failure
code -1; the collection loop consumes one code per mapping (blocking
until each unit reports) and contains no cancellation of siblings. -/
theorem watchAndExec_aggregate (codes : List Int) :
    (watchAndExecAgg codes = 0 ↔ ∀ c ∈ codes, c = 0) ∧
    (watchAndExecAgg codes = 0 ∨ watchAndExecAgg codes = -1) := by
  unfold watchAndExecAgg
  rw [collectFailuresLoop_eq_any]
  by_cases h : codes.any (fun c => decide (c ≠ 0)) = true
  · rcases List.any_eq_true.mp h with ⟨c, hc, hcne⟩
    simp only [h, if_true]
    constructor
    · constructor
      · intro habs
        exact absurd habs (by decide)
      · intro hall
        exact absurd (hall c hc) (by simpa using hcne)
    · exact Or.inr trivial
  · rw [Bool.not_eq_true] at h
    simp only [h, Bool.false_eq_true, if_false]
    constructor
    · constructor
      · intro _ c hc
        have hfc := List.any_eq_false.mp h c hc
        simpa using hfc
      · intro _
        exact trivial
    · exact Or.inl trivial

/-- C10: the startup normalization indexes `Prefix[0]` and
`Path[len(Path)-1]` with no emptiness check, so a mapping whose prefix
or path is empty panics with an index-out-of-range before the watcher
starts (provided the Consul client construction before it succeeded). -/
theorem empty_mapping_fields_panic (pre path : String) (sep : Char)
    (h : pre = "" ∨ path = "") :
    startMapping true pre path sep = StartResult.panicked := by
  rcases h with h | h
  · subst h
    rfl
  · subst h
    unfold startMapping
    rcases hd : pre.data with _ | ⟨c, cs⟩
    · simp [trimLeadingSlash, hd]
    · simp [trimLeadingSlash, hd, normalizePath, strLast]

/-- Witness for `empty_mapping_fields_panic` at the empty prefix. -/
theorem empty_mapping_fields_panic_witness :
    (("" : String) = "" ∨ ("x" : String) = "") ∧
    startMapping true "" "x" '/' = StartResult.panicked :=
  ⟨Or.inl rfl, empty_mapping_fields_panic "" "x" '/' (Or.inl rfl)⟩

/-- C3 counterexample: from the uninitialized state (Go's nil map,
which the spec reads as the empty Environment) an empty snapshot yields
a candidate that is structurally equal — same key set, same values — to
the current Environment, yet `reflect.DeepEqual(nil, make(...))` is
false, so the code runs a full accepted cycle including the on-change
command. -/
theorem emptyFirstSnapshot_runs_command :
    envEq (semEnv (none : Option Env)) (buildNewEnv demoMapping.pfx []) = true ∧
    Ev.evCmd ["onchange"] ∈
      (reconcileCycle allOkWorld false demoMapping none emptyFs []).evs := by
  refine ⟨rfl, ?_⟩
  decide

/-- C3 (amended): once the Reconciler holds an Environment (the Go map
is non-nil), a snapshot whose candidate is structurally equal to it is
discarded with no filesystem event, no transform, no command and no
state change; consequently re-delivering any pair list right after it
was processed produces zero events and zero commands. -/
theorem identicalSnapshot_noop :
    (∀ (w : World) (ro : Bool) (m : Mapping) (e : Env) (fs : Fs)
        (pairs : List (String × String)),
      envEq e (buildNewEnv m.pfx pairs) = true →
      reconcileCycle w ro m (some e) fs pairs = ⟨some e, fs, [], none⟩) ∧
    (∀ (w : World) (m : Mapping) (env : Option Env) (fs : Fs)
        (pairs : List (String × String)),
      reconcileCycle w false m
          (reconcileCycle w false m env fs pairs).envOut
          (reconcileCycle w false m env fs pairs).fsOut pairs =
        ⟨(reconcileCycle w false m env fs pairs).envOut,
          (reconcileCycle w false m env fs pairs).fsOut, [], none⟩) := by
  constructor
  · intro w ro m e fs pairs h
    exact reconcileCycle_noop w ro m e fs pairs h
  · intro w m env fs pairs
    by_cases hb : deepEqualOpt env (buildNewEnv m.pfx pairs) = true
    · rcases env with _ | e
      · simp [deepEqualOpt] at hb
      · have h1 := reconcileCycle_noop w false m e fs pairs hb
        rw [h1]
        exact h1
    · rw [Bool.not_eq_true] at hb
      obtain ⟨henv, -, -⟩ := reconcileCycle_accepted w false m env fs pairs hb
      rw [henv]
      exact reconcileCycle_noop w false m (buildNewEnv m.pfx pairs) _ pairs
        (envEq_refl _)

/-- Witness for `identicalSnapshot_noop`: a held environment equal to
the candidate of the delivered pair list is left untouched. -/
theorem identicalSnapshot_noop_witness :
    envEq [("k", "v")] (buildNewEnv demoMapping.pfx [("p/k", "v")]) = true ∧
    reconcileCycle allOkWorld false demoMapping (some [("k", "v")]) emptyFs
        [("p/k", "v")] =
      ⟨some [("k", "v")], emptyFs, [], none⟩ :=
  ⟨rfl, identicalSnapshot_noop.1 allOkWorld false demoMapping [("k", "v")]
    emptyFs [("p/k", "v")] rfl⟩

/-- The accepted cycle's exit on a failing on-change command. -/
theorem reconcileCycle_cmdFail (w : World) (ro : Bool) (m : Mapping)
    (env : Option Env) (fs : Fs) (pairs : List (String × String))
    (argv : List String)
    (hcmd : m.onChange = some argv) (hfail : w.runCmd argv = false)
    (hacc : deepEqualOpt env (buildNewEnv m.pfx pairs) = false) :
    (reconcileCycle w ro m env fs pairs).exit = some ExitKind.cmdFail := by
  unfold reconcileCycle
  simp only [hacc, Bool.false_eq_true, if_false, hcmd, hfail]

/-- C4 counterexample: in run-once mode the deferred close of the quit
channel is not registered, and the `return 111` on command failure does
not close it either, so the watcher is not signaled to stop: the unit
finishes with code 111 but `quitClosed = false`. -/
theorem cmdFail_runOnce_watcher_not_signaled :
    (runUnit failCmdWorld true demoMapping [Msg.pairs [("p/k", "v")]]
        none emptyFs []).outcome =
      Outcome.finished 111 none false := by
  rfl

/-- C4 (amended): whenever a mapping defines an on-change command and
running it fails in an accepted cycle, the reconciler stops with the
distinguished code 111 in run-once and continuous mode alike; the quit
channel that signals the watcher is closed exactly when the run is not
run-once (the deferred close), so the watcher is signaled in continuous
mode only. -/
theorem cmdFail_returns_111 (w : World) (ro : Bool) (m : Mapping)
    (env : Option Env) (fs : Fs) (pairs : List (String × String))
    (rest : List Msg) (argv : List String)
    (hcmd : m.onChange = some argv) (hfail : w.runCmd argv = false)
    (hacc : deepEqualOpt env (buildNewEnv m.pfx pairs) = false) :
    (runUnit w ro m (Msg.pairs pairs :: rest) env fs []).outcome =
      Outcome.finished 111 none (!ro) := by
  have hex := reconcileCycle_cmdFail w ro m env fs pairs argv hcmd hfail hacc
  simp only [runUnit]
  rw [hex]
  rfl

/-- Witness for `cmdFail_returns_111` in continuous mode: the unit
reports 111 and the watcher is signaled (`quitClosed = true`). -/
theorem cmdFail_returns_111_witness :
    (demoMapping.onChange = some ["onchange"] ∧
     failCmdWorld.runCmd ["onchange"] = false ∧
     deepEqualOpt none (buildNewEnv demoMapping.pfx [("p/k", "v")]) = false) ∧
    (runUnit failCmdWorld false demoMapping [Msg.pairs [("p/k", "v")]]
        none emptyFs []).outcome =
      Outcome.finished 111 none (!false) :=
  ⟨⟨rfl, rfl, rfl⟩,
    cmdFail_returns_111 failCmdWorld false demoMapping none emptyFs
      [("p/k", "v")] [] ["onchange"] rfl rfl rfl⟩

/-- C6 counterexample: in an accepted cycle with one written key, the
environment-replacement event precedes the write, so the replacement
does not happen after the per-key writes have been attempted. -/
theorem write_occurs_after_envReplace :
    writesAfterReplace
      (reconcileCycle allOkWorld false demoMapping none emptyFs
        [("p/k", "v")]).evs = true := by
  rfl

/-- C6 (amended): in every accepted cycle the stored Environment is
replaced by the candidate exactly once, after the deletions are
attempted and before the per-key writes; because the write loop ranges
over the candidate itself, the next comparison baseline is the intended
new state even when individual file operations failed. -/
theorem envReplace_once_after_deletes (w : World) (ro : Bool) (m : Mapping)
    (env : Option Env) (fs : Fs) (pairs : List (String × String))
    (hb : deepEqualOpt env (buildNewEnv m.pfx pairs) = false) :
    replaceCount (reconcileCycle w ro m env fs pairs).evs = 1 ∧
    removesAfterReplace (reconcileCycle w ro m env fs pairs).evs = false ∧
    writesBeforeReplace (reconcileCycle w ro m env fs pairs).evs = false ∧
    (reconcileCycle w ro m env fs pairs).envOut =
      some (buildNewEnv m.pfx pairs) := by
  obtain ⟨henv, hevs, -⟩ := reconcileCycle_accepted w ro m env fs pairs hb
  rw [hevs]
  have hd : ∀ e ∈ (deletePhase w m.path (buildNewEnv m.pfx pairs)
      (env.getD []) fs).2, isRemoveEv e = true := by
    intro e he
    rw [deletePhase_evs] at he
    rcases List.mem_map.mp he with ⟨kv, -, rfl⟩
    rfl
  have hr : ∀ e ∈ (writePhase w m.keystore m.path (buildNewEnv m.pfx pairs)
        (deletePhase w m.path (buildNewEnv m.pfx pairs) (env.getD []) fs).1).2 ++
      (match m.onChange with
       | some argv => [Ev.evCmd argv]
       | none => []),
      isRemoveEv e = false ∧ isReplaceEv e = false := by
    intro e he
    rcases List.mem_append.mp he with hw | hcmd
    · have hall := List.all_eq_true.mp (writePhase_writeish w m.keystore m.path
        (buildNewEnv m.pfx pairs)
        (deletePhase w m.path (buildNewEnv m.pfx pairs) (env.getD []) fs).1) e hw
      exact ⟨writeish_not_remove e hall, writeish_not_replace e hall⟩
    · rcases hoc : m.onChange with _ | argv
      · rw [hoc] at hcmd
        cases hcmd
      · rw [hoc] at hcmd
        obtain rfl := List.mem_singleton.mp hcmd
        exact ⟨rfl, rfl⟩
  have hsh := trace_shape _ _ hd hr
  exact ⟨hsh.1, hsh.2.1, hsh.2.2, henv⟩

/-- Witness for `envReplace_once_after_deletes` on a concrete accepted
cycle. -/
theorem envReplace_once_after_deletes_witness :
    deepEqualOpt none (buildNewEnv demoMapping.pfx [("p/k", "v")]) = false ∧
    (replaceCount (reconcileCycle allOkWorld false demoMapping none emptyFs
        [("p/k", "v")]).evs = 1 ∧
     removesAfterReplace (reconcileCycle allOkWorld false demoMapping none
        emptyFs [("p/k", "v")]).evs = false ∧
     writesBeforeReplace (reconcileCycle allOkWorld false demoMapping none
        emptyFs [("p/k", "v")]).evs = false ∧
     (reconcileCycle allOkWorld false demoMapping none emptyFs
        [("p/k", "v")]).envOut =
       some (buildNewEnv demoMapping.pfx [("p/k", "v")])) :=
  ⟨rfl, envReplace_once_after_deletes allOkWorld false demoMapping none
    emptyFs [("p/k", "v")] rfl⟩

/-- C7: the deletion loop attempts the removal of exactly the files
`Path + key` for the keys present in the current environment and absent
from the candidate, in iteration order and continuing past failures;
afterwards the filesystem lacks exactly those of these files whose
removal succeeded and is untouched at every other path. -/
theorem deletePhase_precision (w : World) (mPath : String)
    (env newEnv : Env) (fs : Fs) :
    (deletePhase w mPath newEnv env fs).2 =
      (env.filter (fun kv => !(envLookup newEnv kv.1).isSome)).map
        (fun kv => Ev.evRemove (mPath ++ kv.1)) ∧
    ∀ p, (deletePhase w mPath newEnv env fs).1 p =
      if env.any (fun kv => !(envLookup newEnv kv.1).isSome &&
          (mPath ++ kv.1 == p) && w.removeOk (mPath ++ kv.1))
      then none else fs p :=
  ⟨deletePhase_evs w mPath newEnv env fs,
    fun p => deletePhase_fs w mPath newEnv env fs p⟩

/-- C9: with a keystore configured the reconciler `os.Create`s — and so
truncates — the key's file before the transform pipeline runs; when
decrypt, template parse or template execute fails, the write is skipped
and the file is left truncated to empty, destroying any prior on-disk
content for that key. -/
theorem transformFail_leaves_truncated_file (w : World) (ks mPath : String)
    (fs : Fs) (k v : String)
    (hks : ks.length > 0) (hc : w.createOk (mPath ++ k) = true)
    (hf : transformFails w ks v = true) :
    (processKey w ks mPath fs k v).1 (mPath ++ k) = some "" ∧
    (processKey w ks mPath fs k v).2 =
      [Ev.evMkdir (dirOf (mPath ++ k)), Ev.evCreate (mPath ++ k),
        Ev.evTransform k] := by
  unfold transformFails at hf
  unfold processKey
  simp only [hc, Bool.not_true, Bool.false_eq_true, if_false]
  rw [if_pos hks]
  rcases hdk : w.decrypt ks v with e | data <;> simp only [hdk] at hf ⊢
  · exact ⟨by simp [fsSet], by simp⟩
  · rcases hdp : w.parseTmpl data with e2 | u <;> simp only [hdp] at hf ⊢
    · exact ⟨by simp [fsSet], by simp⟩
    · rcases hde : w.execTmpl data with e3 | out <;> simp only [hde] at hf ⊢
      · exact ⟨by simp [fsSet], by simp⟩
      · exact absurd hf (by simp)

/-- Witness for `transformFail_leaves_truncated_file`: the prior content
`old` of `out/k` is replaced by an empty file when decryption fails. -/
theorem transformFail_leaves_truncated_file_witness :
    (("ks" : String).length > 0 ∧
     failDecryptWorld.createOk ("out/" ++ "k") = true ∧
     transformFails failDecryptWorld "ks" "v" = true ∧
     priorFs ("out/" ++ "k") = some "old") ∧
    (processKey failDecryptWorld "ks" "out/" priorFs "k" "v").1 ("out/" ++ "k") =
        some "" ∧
    (processKey failDecryptWorld "ks" "out/" priorFs "k" "v").2 =
      [Ev.evMkdir (dirOf ("out/" ++ "k")), Ev.evCreate ("out/" ++ "k"),
        Ev.evTransform "k"] :=
  ⟨⟨by decide, rfl, rfl, rfl⟩,
    transformFail_leaves_truncated_file failDecryptWorld "ks" "out/" priorFs
      "k" "v" (by decide) rfl rfl⟩

end Fsconsul
